import Mathlib

/-
Shallow embedding of the hex-grid coordinate and topology engine of the
catan repository (hex.ts, canvas.ts, shapes.ts, main.ts).

Modelling conventions:
  - IEEE double values in the source are modelled as exact rationals,
    except for the pixel geometry which lives in the ring of numbers of
    the form a + b * sqrt 3 with rational a, b (see the K structure
    below), where the source formulas are exact.
  - JavaScript strings used as map keys are modelled as lists of UTF-16
    code units, that is, lists of natural numbers.
  - JavaScript Map objects are modelled as association lists with the
    set-or-replace insertion of Map.prototype.set.
  - A constructor that can throw is modelled as an Option-valued maker;
    a loop whose body can throw is modelled with foldlM over Option, so
    a throw aborts the whole computation, as in the source.
-/

/-- Cube coordinate record: the CubeCoordinate type of hex.ts. -/
structure CubeCoord where
  q : ℤ
  r : ℤ
  s : ℤ
deriving DecidableEq

/-- JS Math.round: nearest integer, ties rounded toward positive infinity,
which on exact rationals is the floor of x + 1/2. -/
def jround (x : ℚ) : ℤ := ⌊x + 1/2⌋

/-- JS Math.abs on exact rationals. -/
def jabs (x : ℚ) : ℚ := if x < 0 then -x else x

/-- The rounding residual of one component in cubeRound: the local
q_diff, r_diff, s_diff values of the source. -/
def cubeDiff (x : ℚ) : ℚ := jabs ((jround x : ℚ) - x)

/-- cubeRound from hex.ts lines 1 to 20: round each component, then recompute
the component with the largest rounding residual as the negated sum of the
other two rounded components.  The two if-conditions use strict comparisons
exactly as in the source; the local constants of the source are inlined. -/
def cubeRound (q r s : ℚ) : CubeCoord :=
  if cubeDiff q > cubeDiff r ∧ cubeDiff q > cubeDiff s then
    ⟨-(jround r) - jround s, jround r, jround s⟩
  else if cubeDiff r > cubeDiff s then
    ⟨jround q, -(jround q) - jround s, jround s⟩
  else
    ⟨jround q, jround r, -(jround q) - jround r⟩

/-- The six edge directions of hex.ts, in source declaration order. -/
inductive EdgeDirection where
  | northEast
  | east
  | southEast
  | southWest
  | west
  | northWest
deriving DecidableEq

/-- The edgeDirections array of hex.ts, in source order. -/
def edgeDirections : List EdgeDirection :=
  [.northEast, .east, .southEast, .southWest, .west, .northWest]

/-- The six vertex directions of hex.ts, in source declaration order. -/
inductive VertexDirection where
  | north
  | northEast
  | southEast
  | south
  | southWest
  | northWest
deriving DecidableEq

/-- The vertexDirections array of hex.ts, in source order. -/
def vertexDirections : List VertexDirection :=
  [.north, .northEast, .southEast, .south, .southWest, .northWest]

/-- CUBE_DIRECTION_VECTORS from hex.ts lines 51 to 58. -/
def CUBE_DIRECTION_VECTORS : EdgeDirection → CubeCoord
  | .northEast => ⟨1, -1, 0⟩
  | .east => ⟨1, 0, -1⟩
  | .southEast => ⟨0, 1, -1⟩
  | .southWest => ⟨-1, 1, 0⟩
  | .west => ⟨-1, 0, 1⟩
  | .northWest => ⟨0, -1, 1⟩

/-- PointyHexTile.getNeighbourCoords: componentwise sum of the tile
coordinate and the direction vector. -/
def getNeighbourCoords (c : CubeCoord) (direction : EdgeDirection) : CubeCoord :=
  let v := CUBE_DIRECTION_VECTORS direction
  ⟨c.q + v.q, c.r + v.r, c.s + v.s⟩

/-- The vertexToEdgeNeighbours table inside PointyHexTile.getVertexCoords. -/
def vertexToEdgeNeighbours : VertexDirection → EdgeDirection × EdgeDirection
  | .north => (.northWest, .northEast)
  | .northEast => (.northEast, .east)
  | .southEast => (.east, .southEast)
  | .south => (.southEast, .southWest)
  | .southWest => (.southWest, .west)
  | .northWest => (.west, .northWest)

/-- PointyHexTile.getVertexCoords: the tile itself followed by its two
neighbours across the edges adjacent to the vertex. -/
def getVertexCoords (c : CubeCoord) (direction : VertexDirection) : List CubeCoord :=
  let neighbours := vertexToEdgeNeighbours direction
  [c, getNeighbourCoords c neighbours.1, getNeighbourCoords c neighbours.2]

/-- PointyHexTile.getEdgeCoords: the tile itself and the neighbour in the
given direction. -/
def getEdgeCoords (c : CubeCoord) (direction : EdgeDirection) : List CubeCoord :=
  [c, getNeighbourCoords c direction]

/-- coordinatesAreEqual from hex.ts: exact equality on all three fields. -/
def coordinatesAreEqual (a b : CubeCoord) : Bool :=
  a.q == b.q && a.r == b.r && a.s == b.s

/-- verticiesAreEqual from hex.ts lines 73 to 77: every coordinate of the
first list occurs somewhere in the second list. -/
def verticiesAreEqual (a b : List CubeCoord) : Bool :=
  a.all fun a_coord => b.any fun b_coord => coordinatesAreEqual a_coord b_coord

/-- edgesAreEqual from hex.ts lines 79 to 83: same one-sided check as
verticiesAreEqual. -/
def edgesAreEqual (a b : List CubeCoord) : Bool :=
  a.all fun a_coord => b.any fun b_coord => coordinatesAreEqual a_coord b_coord

/-- PointyHexTile.isNeighbour: scan of the six directions, true when some
neighbour coordinate of the first tile equals the second coordinate. -/
def isNeighbour (c other : CubeCoord) : Bool :=
  edgeDirections.any fun direction =>
    coordinatesAreEqual (getNeighbourCoords c direction) other

/-- Little-endian base-10 digits by repeated division, with a fuel
argument so that the recursion is structural and kernel-reducible. -/
def natDigitsAux : ℕ → ℕ → List ℕ
  | 0, _ => []
  | _ + 1, 0 => []
  | fuel + 1, n + 1 => (n + 1) % 10 :: natDigitsAux fuel ((n + 1) / 10)

/-- Little-endian base-10 digits of a natural number. -/
def natDigits (n : ℕ) : List ℕ := natDigitsAux n n

/-- Decimal digit string of a natural number as UTF-16 code units, as JS
template interpolation renders it: the code unit of 0 is 48. -/
def natStr (n : ℕ) : List ℕ :=
  if n = 0 then [48] else ((natDigits n).map (fun d => 48 + d)).reverse

/-- Decimal string of an integer as UTF-16 code units: a leading minus
sign, code unit 45, for negative values. -/
def intStr (z : ℤ) : List ℕ :=
  if z < 0 then 45 :: natStr z.natAbs else natStr z.natAbs

/-- The per-coordinate string of BoardGame.getCoordHash: the template
string q comma r comma s, with comma code unit 44. -/
def coordStr (c : CubeCoord) : List ℕ :=
  intStr c.q ++ 44 :: (intStr c.r ++ 44 :: intStr c.s)

/-- The default JS Array.prototype.sort comparator on strings: lexicographic
comparison of UTF-16 code unit sequences, as a boolean less-or-equal. -/
def strLe : List ℕ → List ℕ → Bool
  | [], _ => true
  | _ :: _, [] => false
  | a :: as, b :: bs => if a < b then true else if b < a then false else strLe as bs

/-- The sort call inside BoardGame.getCoordHash: the default lexicographic
string sort of JS arrays, realised by insertion sort (any correct sort of
strings yields the same list). -/
def sortStrs (l : List (List ℕ)) : List (List ℕ) :=
  List.insertionSort (fun a b => strLe a b = true) l

/-- BoardGame.getCoordHash from canvas.ts lines 233 to 238: render each
coordinate as the string q comma r comma s, sort the strings, join them
with the bar separator, code unit 124. -/
def getCoordHash (coords : List CubeCoord) : List ℕ :=
  List.intercalate [124] (sortStrs (coords.map coordStr))

/-- JS Math.abs on integer-valued numbers. -/
def intAbs (z : ℤ) : ℤ := if z < 0 then -z else z

/-- Tag distinguishing the two GameTile variants of canvas.ts.  The random
resource and number of a ResourceTile play no role in any claim and are not
modelled. -/
inductive TileKind where
  | resource
  | placeholder
deriving DecidableEq

/-- A placed tile: a PointyHexTile (cube coordinate and pixel size) tagged
with its variant. -/
structure GameTile where
  coords : CubeCoord
  size : ℚ
  kind : TileKind
deriving DecidableEq

/-- A JS Map modelled as an association list in insertion order.
Map.prototype.set replaces the value in place when the key is already
present, otherwise appends. -/
def mapSet {α : Type} (m : List (List ℕ × α)) (k : List ℕ) (v : α) :
    List (List ℕ × α) :=
  if m.any (fun p => p.1 == k) then
    m.map (fun p => if p.1 == k then (k, v) else p)
  else
    m ++ [(k, v)]

/-- The Map constructor on a list of entries: repeated set on an empty map,
so a later entry with a duplicate key overwrites the earlier one. -/
def mapFromList {α : Type} (l : List (List ℕ × α)) : List (List ℕ × α) :=
  l.foldl (fun m p => mapSet m p.1 p.2) []

/-- Map.prototype.get. -/
def mapGet {α : Type} (m : List (List ℕ × α)) (k : List ℕ) : Option α :=
  (m.find? (fun p => p.1 == k)).map (fun p => p.2)

/-- Map.prototype.has. -/
def mapHas {α : Type} (m : List (List ℕ × α)) (k : List ℕ) : Bool :=
  m.any (fun p => p.1 == k)

/-- Fuel-based helper for the inclusive integer range of a JS for loop. -/
def intRangeAux (a : ℤ) : ℕ → List ℤ
  | 0 => []
  | n + 1 => a :: intRangeAux (a + 1) n

/-- The inclusive integer range of a JS for loop from a to b. -/
def intRange (a b : ℤ) : List ℤ := intRangeAux a (b + 1 - a).toNat

/-- One iteration of the outer loop of BoardGame.createGrid, canvas.ts
lines 331 to 353: the inner loop over q at a fixed r.  A cell is kept when
the absolute value of s = -q-r is at most the radius, and tagged
placeholder exactly when it lies on the outer ring. -/
def createGridRow (radius : ℤ) (tileSize : ℚ) (r : ℤ) : List GameTile :=
  (intRange (-radius) radius).filterMap (fun q =>
    if intAbs (-q - r) ≤ radius then
      some ⟨⟨q, r, -q - r⟩, tileSize,
        if intAbs q = radius ∨ intAbs r = radius ∨ intAbs (-q - r) = radius then
          .placeholder
        else
          .resource⟩
    else none)

/-- BoardGame.createGrid, with the radius (3 in the source) and the tile
size (0.07 times the canvas width in the source) as parameters: the outer
loop over r concatenates the rows. -/
def createGrid (radius : ℤ) (tileSize : ℚ) : List GameTile :=
  ((intRange (-radius) radius).map (createGridRow radius tileSize)).flatten

/-- A Road: the record of its two tiles.  The rectangle shape and angle of
the source constructor are pixel geometry and play no role in the topology
claims. -/
structure Road where
  tile1 : GameTile
  tile2 : GameTile
deriving DecidableEq

/-- The Road constructor of canvas.ts lines 86 to 104: throws (none)
unless tile 1 is a neighbour of tile 2. -/
def mkRoad (t1 t2 : GameTile) : Option Road :=
  if isNeighbour t1.coords t2.coords then some ⟨t1, t2⟩ else none

/-- The key under which the roads setter of canvas.ts lines 254 to 261
stores a road: the canonical hash of the coordinates of its tiles. -/
def roadKey (rd : Road) : List ℕ :=
  getCoordHash [rd.tile1.coords, rd.tile2.coords]

/-- A Settlement: the record of its tiles.  The source type annotation
promises three tiles but the runtime value is whatever array the caller
passes, so the model keeps a list. -/
structure Settlement where
  tiles : List GameTile
deriving DecidableEq

/-- The adjacency check of the Settlement constructor, canvas.ts lines 149
to 157: every tile is a neighbour of the next one, indices wrapping around
modulo the array length. -/
def cyclicNeighbours (ts : List GameTile) : Bool :=
  (List.range ts.length).all fun i =>
    match ts[i]?, ts[(i + 1) % ts.length]? with
    | some a, some b => isNeighbour a.coords b.coords
    | _, _ => false

/-- The Settlement constructor, canvas.ts lines 149 to 164: it throws
(none) unless the cyclic neighbour check passes; when the check passes it
computes the shape center with get2DCoords, which destructures the array
into tile1, tile2, tile3 and calls get2DCoords on each of them, so an
array with fewer than three tiles throws a TypeError there (tile3, or
tile2 and tile1 as well, is undefined).  An array with three or more
tiles succeeds: the destructuring just takes the first three. -/
def mkSettlement (ts : List GameTile) : Option Settlement :=
  if cyclicNeighbours ts then
    if 3 ≤ ts.length then some ⟨ts⟩ else none
  else none

/-- The key under which the settlements setter stores a settlement. -/
def settlementKey (st : Settlement) : List ℕ :=
  getCoordHash (st.tiles.map (fun t => t.coords))

/-- The tiles setter of canvas.ts lines 244 to 248. -/
def setTiles (tiles : List GameTile) : List (List ℕ × GameTile) :=
  mapFromList (tiles.map (fun t => (getCoordHash [t.coords], t)))

/-- BoardGame.getTileAtCoords. -/
def getTileAtCoords (tm : List (List ℕ × GameTile)) (c : CubeCoord) :
    Option GameTile :=
  mapGet tm (getCoordHash [c])

/-- The resourceTiles getter: map values in insertion order, filtered to
the ResourceTile variant. -/
def resourceTilesOf (tm : List (List ℕ × GameTile)) : List GameTile :=
  (tm.map (fun p => p.2)).filter (fun t => t.kind == .resource)

/-- The road loop of BoardGame.createAllLocations, canvas.ts lines 355 to
374.  The roadMap0 argument is the roadCoordMap as it stands while the
loop runs; in the program it is still the initial empty map, because the
roads setter runs only after the loop.  The source constructs Road twice,
once for the hash lookup and once for the push; both constructions are
kept, and a constructor throw aborts the whole computation. -/
def createRoads (tm : List (List ℕ × GameTile))
    (roadMap0 : List (List ℕ × Road)) : Option (List Road) :=
  List.foldlM (fun acc tile =>
    List.foldlM (fun acc2 direction =>
      match getTileAtCoords tm (getNeighbourCoords tile.coords direction) with
      | none => some acc2
      | some neighbour =>
        match mkRoad tile neighbour with
        | none => none
        | some road =>
          if mapHas roadMap0 (roadKey road) then some acc2
          else
            match mkRoad tile neighbour with
            | none => none
            | some road2 => some (acc2 ++ [road2])) acc edgeDirections)
    [] (resourceTilesOf tm)

/-- The roads setter of canvas.ts lines 254 to 261: a Map built from the
list of key-road entries. -/
def setRoads (roads : List Road) : List (List ℕ × Road) :=
  mapFromList (roads.map (fun rd => (roadKey rd, rd)))

/-- The settlement loop of BoardGame.createAllLocations, canvas.ts lines
376 to 392: for each resource tile, the six vertex triads in source order;
a triad whose hash is not yet in the settlement map (stMap0, still the
empty map while the loop runs) has its coordinates resolved against the
tile map, unresolved coordinates are dropped by the filter, and the
Settlement constructor is applied to whatever tiles remain. -/
def createSettlements (tm : List (List ℕ × GameTile))
    (stMap0 : List (List ℕ × Settlement)) : Option (List Settlement) :=
  List.foldlM (fun acc tile =>
    List.foldlM (fun acc2 coords =>
      if mapHas stMap0 (getCoordHash coords) then some acc2
      else
        match mkSettlement (coords.filterMap (fun c => getTileAtCoords tm c)) with
        | none => none
        | some st => some (acc2 ++ [st])) acc
      (vertexDirections.map (fun v => getVertexCoords tile.coords v)))
    [] (resourceTilesOf tm)

/-- The settlements setter of canvas.ts lines 267 to 274. -/
def setSettlements (sts : List Settlement) : List (List ℕ × Settlement) :=
  mapFromList (sts.map (fun st => (settlementKey st, st)))

/-- The tile map of the board the program builds: radius 3; the tile size
does not influence the topology and is fixed at 70 here. -/
def board3TileMap : List (List ℕ × GameTile) := setTiles (createGrid 3 70)

/-- The road candidate list of the board build. -/
def board3Roads : Option (List Road) := createRoads board3TileMap []

/-- The road map after the roads setter. -/
def board3RoadMap : List (List ℕ × Road) := setRoads (board3Roads.getD [])

/-- The settlement candidate list of the board build. -/
def board3Settlements : Option (List Settlement) :=
  createSettlements board3TileMap []

/-- The settlement map after the settlements setter. -/
def board3SettlementMap : List (List ℕ × Settlement) :=
  setSettlements (board3Settlements.getD [])

/-- A tile map exercising the board edge in the settlement loop: one
resource tile at the origin surrounded by placeholder tiles in five of the
six directions, with the northEast neighbour missing. -/
def edgeBoardTiles : List GameTile :=
  [⟨⟨0, 0, 0⟩, 70, .resource⟩,
   ⟨⟨1, 0, -1⟩, 70, .placeholder⟩,
   ⟨⟨0, 1, -1⟩, 70, .placeholder⟩,
   ⟨⟨-1, 1, 0⟩, 70, .placeholder⟩,
   ⟨⟨-1, 0, 1⟩, 70, .placeholder⟩,
   ⟨⟨0, -1, 1⟩, 70, .placeholder⟩]

/- Pixel geometry for the shape claims: the exact ring of a + b sqrt 3. -/

/-- Numbers of the form a + b * sqrt 3 with rational a, b: the exact field
in which all pixel geometry of the source lives. -/
@[ext]
structure K where
  a : ℚ
  b : ℚ
deriving DecidableEq

instance : Zero K := ⟨⟨0, 0⟩⟩

instance : One K := ⟨⟨1, 0⟩⟩

instance : Add K := ⟨fun u v => ⟨u.a + v.a, u.b + v.b⟩⟩

instance : Neg K := ⟨fun u => ⟨-u.a, -u.b⟩⟩

instance : Sub K := ⟨fun u v => ⟨u.a - v.a, u.b - v.b⟩⟩

instance : Mul K := ⟨fun u v => ⟨u.a * v.a + 3 * (u.b * v.b), u.a * v.b + u.b * v.a⟩⟩

/-- The inverse: the conjugate divided by the rational norm a^2 - 3 b^2,
which vanishes only at zero because 3 is not a rational square. -/
instance : Inv K := ⟨fun u => ⟨u.a / (u.a ^ 2 - 3 * u.b ^ 2), -u.b / (u.a ^ 2 - 3 * u.b ^ 2)⟩⟩

instance : Div K := ⟨fun u v => u * v⁻¹⟩

/-- The rational embedding. -/
def K.ofQ (x : ℚ) : K := ⟨x, 0⟩

/-- The value sqrt 3. -/
def sqrt3 : K := ⟨0, 1⟩

/-- Sign of a + b * sqrt 3 as a real number: the exact model of a JS
greater-or-equal-zero comparison on these values. -/
def K.nonneg (u : K) : Bool :=
  if 0 ≤ u.a ∧ 0 ≤ u.b then true
  else if u.a < 0 ∧ u.b < 0 then false
  else if 0 ≤ u.a then decide (3 * u.b ^ 2 ≤ u.a ^ 2)
  else decide (u.a ^ 2 ≤ 3 * u.b ^ 2)

/-- JS less-or-equal on exact values. -/
def K.le (u v : K) : Bool := K.nonneg (v - u)

/-- Rectangle.contains from shapes.ts lines 47 to 67.  The source first
computes the cosine and the sine of the negated rotation; those two values
enter the formula only as plain numbers, so the model takes them as the
arguments cosv and sinv (for rotation 0 they are exactly 1 and 0). -/
def rectContains (x y width height cosv sinv px py : ℚ) : Bool :=
  let centerX := x + width / 2
  let centerY := y + height / 2
  let translatedX := px - centerX
  let translatedY := py - centerY
  let rotatedX := translatedX * cosv - translatedY * sinv
  let rotatedY := translatedX * sinv + translatedY * cosv
  decide (jabs rotatedX ≤ width / 2 ∧ jabs rotatedY ≤ height / 2)

/-- PointyHexagon.isPointInTriangle from shapes.ts lines 143 to 159, on the
points p, a, b, c with coordinates p1 p2 a1 a2 b1 b2 c1 c2 (the px py ax ay
bx by cx cy of the source).  The source divides IEEE doubles: with a zero
denominator, w1 or w2 is NaN or an infinity, and in every such case the
three comparisons conjoin to false (NaN comparisons are all false, and an
infinite w1 or w2 fails either its own nonnegativity check or the upper
bound on w1 + w2), so the model returns false outright when a denominator
vanishes and uses exact field division otherwise. -/
def isPointInTriangle (p1 p2 a1 a2 b1 b2 c1 c2 : K) : Bool :=
  let den1 := (b2 - a2) * (c1 - a1) - (b1 - a1) * (c2 - a2)
  let den2 := c2 - a2
  if den1 = 0 ∨ den2 = 0 then false
  else
    let w1 := (a1 * (c2 - a2) + (p2 - a2) * (c1 - a1) - p1 * (c2 - a2)) / den1
    let w2 := (p2 - a2 - w1 * (b2 - a2)) / den2
    K.nonneg w1 && K.nonneg w2 && K.le (w1 + w2) 1

/-- Exact cosine of the angle pi/6 + side*pi/3: the vertex angles of the
pointy-top hexagon in shapes.ts (30 + 60*side degrees). -/
def hexCos (side : ℕ) : K :=
  match side % 6 with
  | 0 => ⟨0, 1/2⟩
  | 1 => 0
  | 2 => ⟨0, -(1/2)⟩
  | 3 => ⟨0, -(1/2)⟩
  | 4 => 0
  | _ => ⟨0, 1/2⟩

/-- Exact sine of the angle pi/6 + side*pi/3. -/
def hexSin (side : ℕ) : K :=
  match side % 6 with
  | 0 => ⟨1/2, 0⟩
  | 1 => 1
  | 2 => ⟨1/2, 0⟩
  | 3 => ⟨-(1/2), 0⟩
  | 4 => -1
  | _ => ⟨-(1/2), 0⟩

/-- PointyHexagon.contains from shapes.ts lines 100 to 127: fan the hexagon
into six triangles from the center to consecutive vertices and test each
one. -/
def hexContains (x y size px py : K) : Bool :=
  (List.range 6).any fun side =>
    let vertex1X := x + size * hexCos side
    let vertex1Y := y + size * hexSin side
    let vertex2X := x + size * hexCos (side + 1)
    let vertex2Y := y + size * hexSin (side + 1)
    isPointInTriangle px py x y vertex1X vertex1Y vertex2X vertex2Y

/-- PointyHexTile.get2DCoords from hex.ts lines 98 to 104: the pointy-top
axial projection, exact in K. -/
def get2DCoords (c : CubeCoord) (size : ℚ) : K × K :=
  (K.ofQ size * (sqrt3 * K.ofQ c.q + sqrt3 / K.ofQ 2 * K.ofQ c.r),
   K.ofQ size * (K.ofQ 3 / K.ofQ 2 * K.ofQ c.r))

/-- The PointyHexagon shape record of shapes.ts as stored by a
ResourceTile: center and size at construction; fill and stroke colors are
not modelled. -/
structure PointyHexagonShape where
  x : K
  y : K
  size : ℚ
deriving DecidableEq

/-- ResourceTile of canvas.ts lines 31 to 75: a PointyHexTile together
with the shape built once in the constructor from the position and size at
construction time.  The random resource and number only choose a color and
are not modelled. -/
structure ResourceTile where
  coords : CubeCoord
  size : ℚ
  shape : PointyHexagonShape
deriving DecidableEq

def mkResourceTile (q r s : ℤ) (size : ℚ) : ResourceTile :=
  let pos := get2DCoords ⟨q, r, s⟩ size
  ⟨⟨q, r, s⟩, size, ⟨pos.1, pos.2, size⟩⟩

/-- One step of BoardGame.updateAllTileSize, canvas.ts lines 420 to 424:
the resize handler assigns a new size to the tile; nothing else changes,
in particular the shape is not rebuilt. -/
def updateTileSize (t : ResourceTile) (newSize : ℚ) : ResourceTile :=
  { t with size := newSize }

/-- get2DCoords of a tile at its current size. -/
def ResourceTile.get2D (t : ResourceTile) : K × K := get2DCoords t.coords t.size

/- ------------------------------------------------------------------ -/
/- Theorems: helper lemmas first, then one theorem per claim with its
counterexample and witness where applicable. -/

/-- Counterexample to claim C1 as stated.  At the input q = 1/2, r = 1/2,
s = -1 the rounding residuals satisfy q_diff = r_diff = 1/2 > s_diff = 0,
yet cubeRound keeps the rounded q component (1 = jround of 1/2) and
recomputes the r component, returning the triple q 1, r 0, s -1 rather
than the triple q 0, r 1, s -1 that recomputing the q component would
produce. -/
theorem cubeRound_tie_counterexample :
    cubeRound (1/2) (1/2) (-1) = ⟨1, 0, -1⟩ ∧
    cubeDiff (1/2 : ℚ) = cubeDiff (1/2 : ℚ) ∧
    cubeDiff (1/2 : ℚ) > cubeDiff (-1 : ℚ) ∧
    cubeRound (1/2) (1/2) (-1) ≠
      ⟨-(jround (1/2)) - jround (-1), jround (1/2), jround (-1)⟩ := by
  refine ⟨?_, rfl, ?_, ?_⟩ <;>
    norm_num [cubeRound, cubeDiff, jround, jabs, CubeCoord.mk.injEq]

/-- Claim C1, amended: when the q residual equals the r residual and both
exceed the s residual, the strict comparison q_diff > r_diff fails, so the
first branch is skipped and the second branch fires: the r component, not
the q component, is recomputed as the negated sum of the other two rounded
components. -/
theorem cubeRound_tie_breaks_to_r (q r s : ℚ)
    (heq : cubeDiff q = cubeDiff r)
    (hgt : cubeDiff q > cubeDiff s) :
    cubeRound q r s = ⟨jround q, -(jround q) - jround s, jround s⟩ := by
  unfold cubeRound
  rw [if_neg, if_pos]
  · rw [← heq]; exact hgt
  · rintro ⟨h1, -⟩
    rw [heq] at h1
    exact lt_irrefl _ h1

/-- Witness for cubeRound_tie_breaks_to_r at the input 1/2, 1/2, -1. -/
theorem cubeRound_tie_breaks_to_r_witness :
    cubeRound (1/2) (1/2) (-1) =
      ⟨jround (1/2), -(jround (1/2)) - jround (-1), jround (-1)⟩ :=
  cubeRound_tie_breaks_to_r (1/2) (1/2) (-1) rfl
    (by norm_num [cubeDiff, jround, jabs])

/-- Claim C2: cubeRound always returns a triple of integers summing to
zero, and adding any direction vector to a zero-sum cube coordinate gives
a zero-sum cube coordinate. -/
theorem cube_invariant_preserved (q r s : ℚ) (c : CubeCoord)
    (d : EdgeDirection) (h : c.q + c.r + c.s = 0) :
    ((cubeRound q r s).q + (cubeRound q r s).r + (cubeRound q r s).s = 0) ∧
    ((getNeighbourCoords c d).q + (getNeighbourCoords c d).r +
      (getNeighbourCoords c d).s = 0) := by
  constructor
  · unfold cubeRound
    split
    · ring
    · split
      · ring
      · ring
  · cases d <;> simp [getNeighbourCoords, CUBE_DIRECTION_VECTORS] <;> omega

/-- Witness for cube_invariant_preserved at the input 0.3, -0.4, 0.1 and
the origin coordinate with direction east. -/
theorem cube_invariant_preserved_witness :
    ((cubeRound (3/10) (-4/10) (1/10)).q + (cubeRound (3/10) (-4/10) (1/10)).r +
      (cubeRound (3/10) (-4/10) (1/10)).s = 0) ∧
    ((getNeighbourCoords ⟨0, 0, 0⟩ .east).q +
      (getNeighbourCoords ⟨0, 0, 0⟩ .east).r +
      (getNeighbourCoords ⟨0, 0, 0⟩ .east).s = 0) :=
  cube_invariant_preserved (3/10) (-4/10) (1/10) ⟨0, 0, 0⟩ .east (by simp)

/-- Claim C10: verticiesAreEqual and edgesAreEqual only check containment
of the first list in the second, so they are not symmetric: a strict
sub-list compares equal one way and unequal the other way. -/
theorem edgesAreEqual_asymmetric :
    edgesAreEqual [⟨0, 0, 0⟩] [⟨0, 0, 0⟩, ⟨1, -1, 0⟩] = true ∧
    edgesAreEqual [⟨0, 0, 0⟩, ⟨1, -1, 0⟩] [⟨0, 0, 0⟩] = false ∧
    verticiesAreEqual [⟨0, 0, 0⟩] [⟨0, 0, 0⟩, ⟨1, -1, 0⟩] = true ∧
    verticiesAreEqual [⟨0, 0, 0⟩, ⟨1, -1, 0⟩] [⟨0, 0, 0⟩] = false := by
  decide

/-- Claim C7: vertex-triad symmetry.  Whenever cp is one of the two
neighbour coordinates in the triad of tile c for vertex direction v1
(that is, cp is a neighbouring tile sharing that vertex), some vertex
direction v2 of the tile at cp yields the same triad as a set; the spec
example instance, tile at the origin with vertex north against tile
(1, -1, 0) with vertex southWest, is included explicitly. -/
theorem vertex_triad_symmetry (c cp : CubeCoord) (v1 : VertexDirection)
    (h1 : cp ∈ getVertexCoords c v1) (h2 : cp ≠ c) :
    (∃ v2 : VertexDirection,
      ∀ x : CubeCoord, x ∈ getVertexCoords c v1 ↔ x ∈ getVertexCoords cp v2) ∧
    (∀ x : CubeCoord,
      x ∈ getVertexCoords ⟨0, 0, 0⟩ .north ↔
        x ∈ getVertexCoords ⟨1, -1, 0⟩ .southWest) := by
  have hex : ∀ x : CubeCoord,
      x ∈ getVertexCoords ⟨0, 0, 0⟩ .north ↔
        x ∈ getVertexCoords ⟨1, -1, 0⟩ .southWest := by
    have hperm : (getVertexCoords ⟨0, 0, 0⟩ .north).Perm
        (getVertexCoords ⟨1, -1, 0⟩ .southWest) := by decide
    exact fun x => hperm.mem_iff
  refine ⟨?_, hex⟩
  cases v1 <;>
    simp only [getVertexCoords, getNeighbourCoords, vertexToEdgeNeighbours,
      CUBE_DIRECTION_VECTORS, List.mem_cons, List.not_mem_nil, or_false] at h1 <;>
    rcases h1 with h1 | h1 | h1
  case north.inl => exact absurd h1 h2
  case north.inr.inl =>
    refine ⟨.southEast, fun x => ?_⟩
    subst h1
    cases c; cases x
    simp only [getVertexCoords, getNeighbourCoords, vertexToEdgeNeighbours,
      CUBE_DIRECTION_VECTORS, List.mem_cons, List.not_mem_nil, or_false,
      CubeCoord.mk.injEq]
    try omega
  case north.inr.inr =>
    refine ⟨.southWest, fun x => ?_⟩
    subst h1
    cases c; cases x
    simp only [getVertexCoords, getNeighbourCoords, vertexToEdgeNeighbours,
      CUBE_DIRECTION_VECTORS, List.mem_cons, List.not_mem_nil, or_false,
      CubeCoord.mk.injEq]
    try omega
  case northEast.inl => exact absurd h1 h2
  case northEast.inr.inl =>
    refine ⟨.south, fun x => ?_⟩
    subst h1
    cases c; cases x
    simp only [getVertexCoords, getNeighbourCoords, vertexToEdgeNeighbours,
      CUBE_DIRECTION_VECTORS, List.mem_cons, List.not_mem_nil, or_false,
      CubeCoord.mk.injEq]
    try omega
  case northEast.inr.inr =>
    refine ⟨.northWest, fun x => ?_⟩
    subst h1
    cases c; cases x
    simp only [getVertexCoords, getNeighbourCoords, vertexToEdgeNeighbours,
      CUBE_DIRECTION_VECTORS, List.mem_cons, List.not_mem_nil, or_false,
      CubeCoord.mk.injEq]
    try omega
  case southEast.inl => exact absurd h1 h2
  case southEast.inr.inl =>
    refine ⟨.southWest, fun x => ?_⟩
    subst h1
    cases c; cases x
    simp only [getVertexCoords, getNeighbourCoords, vertexToEdgeNeighbours,
      CUBE_DIRECTION_VECTORS, List.mem_cons, List.not_mem_nil, or_false,
      CubeCoord.mk.injEq]
    try omega
  case southEast.inr.inr =>
    refine ⟨.north, fun x => ?_⟩
    subst h1
    cases c; cases x
    simp only [getVertexCoords, getNeighbourCoords, vertexToEdgeNeighbours,
      CUBE_DIRECTION_VECTORS, List.mem_cons, List.not_mem_nil, or_false,
      CubeCoord.mk.injEq]
    try omega
  case south.inl => exact absurd h1 h2
  case south.inr.inl =>
    refine ⟨.northWest, fun x => ?_⟩
    subst h1
    cases c; cases x
    simp only [getVertexCoords, getNeighbourCoords, vertexToEdgeNeighbours,
      CUBE_DIRECTION_VECTORS, List.mem_cons, List.not_mem_nil, or_false,
      CubeCoord.mk.injEq]
    try omega
  case south.inr.inr =>
    refine ⟨.northEast, fun x => ?_⟩
    subst h1
    cases c; cases x
    simp only [getVertexCoords, getNeighbourCoords, vertexToEdgeNeighbours,
      CUBE_DIRECTION_VECTORS, List.mem_cons, List.not_mem_nil, or_false,
      CubeCoord.mk.injEq]
    try omega
  case southWest.inl => exact absurd h1 h2
  case southWest.inr.inl =>
    refine ⟨.north, fun x => ?_⟩
    subst h1
    cases c; cases x
    simp only [getVertexCoords, getNeighbourCoords, vertexToEdgeNeighbours,
      CUBE_DIRECTION_VECTORS, List.mem_cons, List.not_mem_nil, or_false,
      CubeCoord.mk.injEq]
    try omega
  case southWest.inr.inr =>
    refine ⟨.southEast, fun x => ?_⟩
    subst h1
    cases c; cases x
    simp only [getVertexCoords, getNeighbourCoords, vertexToEdgeNeighbours,
      CUBE_DIRECTION_VECTORS, List.mem_cons, List.not_mem_nil, or_false,
      CubeCoord.mk.injEq]
    try omega
  case northWest.inl => exact absurd h1 h2
  case northWest.inr.inl =>
    refine ⟨.northEast, fun x => ?_⟩
    subst h1
    cases c; cases x
    simp only [getVertexCoords, getNeighbourCoords, vertexToEdgeNeighbours,
      CUBE_DIRECTION_VECTORS, List.mem_cons, List.not_mem_nil, or_false,
      CubeCoord.mk.injEq]
    try omega
  case northWest.inr.inr =>
    refine ⟨.south, fun x => ?_⟩
    subst h1
    cases c; cases x
    simp only [getVertexCoords, getNeighbourCoords, vertexToEdgeNeighbours,
      CUBE_DIRECTION_VECTORS, List.mem_cons, List.not_mem_nil, or_false,
      CubeCoord.mk.injEq]
    try omega

/-- Witness for vertex_triad_symmetry: the origin tile, its northEast
neighbour and the vertex direction north; from the instantiated triad
equivalence we read off one concrete shared membership. -/
theorem vertex_triad_symmetry_witness :
    (⟨0, -1, 1⟩ : CubeCoord) ∈ getVertexCoords ⟨1, -1, 0⟩ .southWest :=
  ((vertex_triad_symmetry ⟨0, 0, 0⟩ ⟨1, -1, 0⟩ .north (by decide)
    (by decide)).2 ⟨0, -1, 1⟩).mp (by decide)

/- JS strings and the canonical coordinate hash of canvas.ts -/

theorem natDigitsAux_eq (fuel : ℕ) :
    ∀ n, n ≤ fuel → natDigitsAux fuel n = Nat.digits 10 n := by
  induction fuel with
  | zero =>
    intro n hn
    interval_cases n
    simp [natDigitsAux]
  | succ f ih =>
    intro n hn
    cases n with
    | zero => simp [natDigitsAux]
    | succ m =>
      rw [Nat.digits_def' (by norm_num : (1:ℕ) < 10) (Nat.succ_pos m)]
      show (m + 1) % 10 :: natDigitsAux f ((m + 1) / 10) = _
      rw [ih ((m + 1) / 10) (by omega)]

theorem natDigits_eq (n : ℕ) : natDigits n = Nat.digits 10 n :=
  natDigitsAux_eq n n le_rfl

theorem natStr_eq_digits (n : ℕ) :
    natStr n =
      if n = 0 then [48] else ((Nat.digits 10 n).map (fun d => 48 + d)).reverse := by
  unfold natStr
  rw [natDigits_eq]

theorem natStr_ne_nil (n : ℕ) : natStr n ≠ [] := by
  rw [natStr_eq_digits]
  split
  · simp
  · next h =>
    simp only [ne_eq, List.reverse_eq_nil_iff, List.map_eq_nil_iff]
    exact Nat.digits_ne_nil_iff_ne_zero.mpr h

theorem mem_natStr {x n : ℕ} (hx : x ∈ natStr n) : 48 ≤ x ∧ x < 58 := by
  rw [natStr_eq_digits] at hx
  split at hx
  · simp at hx
    omega
  · simp only [List.mem_reverse, List.mem_map] at hx
    obtain ⟨d, hd, rfl⟩ := hx
    have := Nat.digits_lt_base (by norm_num) hd
    omega

theorem natStr_inj : Function.Injective natStr := by
  intro m n h
  rw [natStr_eq_digits, natStr_eq_digits] at h
  by_cases hm : m = 0 <;> by_cases hn : n = 0
  · omega
  · rw [if_pos hm, if_neg hn] at h
    exfalso
    have hd : (Nat.digits 10 n).map (fun d => 48 + d) = [48] := by
      have := congrArg List.reverse h
      simpa using this.symm
    have h0 : Nat.digits 10 n = [0] := by
      rcases hdig : Nat.digits 10 n with - | ⟨d, ds⟩
      · rw [hdig] at hd
        simp at hd
      · rw [hdig] at hd
        cases ds with
        | nil =>
          simp only [List.map_cons, List.map_nil, List.cons.injEq] at hd
          refine congrArg (fun k => [k]) ?_
          omega
        | cons d2 ds2 => simp at hd
    have hofd := congrArg (Nat.ofDigits 10) h0
    rw [Nat.ofDigits_digits] at hofd
    simp [Nat.ofDigits] at hofd
    exact hn hofd
  · rw [if_neg hm, if_pos hn] at h
    exfalso
    have hd : (Nat.digits 10 m).map (fun d => 48 + d) = [48] := by
      have := congrArg List.reverse h
      simpa using this
    have h0 : Nat.digits 10 m = [0] := by
      rcases hdig : Nat.digits 10 m with - | ⟨d, ds⟩
      · rw [hdig] at hd
        simp at hd
      · rw [hdig] at hd
        cases ds with
        | nil =>
          simp only [List.map_cons, List.map_nil, List.cons.injEq] at hd
          refine congrArg (fun k => [k]) ?_
          omega
        | cons d2 ds2 => simp at hd
    have hofd := congrArg (Nat.ofDigits 10) h0
    rw [Nat.ofDigits_digits] at hofd
    simp [Nat.ofDigits] at hofd
    exact hm hofd
  · rw [if_neg hm, if_neg hn] at h
    have h1 := List.reverse_injective h
    have h2 := List.map_injective_iff.mpr (fun a b hab => by omega) h1
    have := congrArg (Nat.ofDigits 10) h2
    rwa [Nat.ofDigits_digits, Nat.ofDigits_digits] at this

theorem mem_intStr {x : ℕ} {z : ℤ} (hx : x ∈ intStr z) :
    x = 45 ∨ (48 ≤ x ∧ x < 58) := by
  unfold intStr at hx
  split at hx
  · rcases List.mem_cons.mp hx with rfl | hx
    · exact Or.inl rfl
    · exact Or.inr (mem_natStr hx)
  · exact Or.inr (mem_natStr hx)

theorem intStr_inj : Function.Injective intStr := by
  intro z w h
  unfold intStr at h
  split at h <;> split at h
  · next hz hw =>
    have := natStr_inj (List.cons.injEq _ _ _ _ ▸ h).2
    omega
  · next hz hw =>
    exfalso
    have h45 : (45 : ℕ) ∈ natStr w.natAbs := h ▸ List.mem_cons_self 45 _
    have := mem_natStr h45
    omega
  · next hz hw =>
    exfalso
    have h45 : (45 : ℕ) ∈ natStr z.natAbs := h.symm ▸ List.mem_cons_self 45 _
    have := mem_natStr h45
    omega
  · next hz hw =>
    have := natStr_inj h
    omega

theorem comma_not_mem_intStr (z : ℤ) : (44 : ℕ) ∉ intStr z := by
  intro h
  rcases mem_intStr h with h | h <;> omega

theorem append_comma_inj :
    ∀ (a c b d : List ℕ), (44 : ℕ) ∉ a → (44 : ℕ) ∉ c →
      a ++ 44 :: b = c ++ 44 :: d → a = c ∧ b = d := by
  intro a
  induction a with
  | nil =>
    intro c b d _ hc h
    cases c with
    | nil => simpa using h
    | cons y ys =>
      exfalso
      simp only [List.nil_append, List.cons_append, List.cons.injEq] at h
      exact hc (h.1 ▸ List.mem_cons_self y ys)
  | cons x xs ih =>
    intro c b d ha hc h
    cases c with
    | nil =>
      exfalso
      simp only [List.nil_append, List.cons_append, List.cons.injEq] at h
      exact ha (h.1 ▸ List.mem_cons_self x xs)
    | cons y ys =>
      simp only [List.cons_append, List.cons.injEq] at h
      obtain ⟨rfl, h2⟩ := h
      have := ih ys b d (fun hm => ha (List.mem_cons_of_mem _ hm))
        (fun hm => hc (List.mem_cons_of_mem _ hm)) h2
      exact ⟨by rw [this.1], this.2⟩

theorem coordStr_inj : Function.Injective coordStr := by
  intro c1 c2 h
  unfold coordStr at h
  obtain ⟨hq, h2⟩ := append_comma_inj _ _ _ _
    (comma_not_mem_intStr c1.q) (comma_not_mem_intStr c2.q) h
  obtain ⟨hr, hs⟩ := append_comma_inj _ _ _ _
    (comma_not_mem_intStr c1.r) (comma_not_mem_intStr c2.r) h2
  cases c1; cases c2
  simp only [CubeCoord.mk.injEq]
  exact ⟨intStr_inj hq, intStr_inj hr, intStr_inj hs⟩

theorem strLe_total (a b : List ℕ) : strLe a b = true ∨ strLe b a = true := by
  induction a generalizing b with
  | nil => exact Or.inl rfl
  | cons x xs ih =>
    cases b with
    | nil => exact Or.inr rfl
    | cons y ys =>
      rcases Nat.lt_trichotomy x y with h | h | h
      · exact Or.inl (by simp [strLe, h])
      · subst h
        rcases ih ys with h2 | h2
        · exact Or.inl (by simp [strLe, h2])
        · exact Or.inr (by simp [strLe, h2])
      · exact Or.inr (by simp [strLe, h])

theorem strLe_antisymm {a b : List ℕ} (h1 : strLe a b = true)
    (h2 : strLe b a = true) : a = b := by
  induction a generalizing b with
  | nil =>
    cases b with
    | nil => rfl
    | cons y ys => simp [strLe] at h2
  | cons x xs ih =>
    cases b with
    | nil => simp [strLe] at h1
    | cons y ys =>
      rcases Nat.lt_trichotomy x y with h | h | h
      · simp [strLe, h, Nat.lt_asymm h] at h2
      · subst h
        simp only [strLe, lt_irrefl, if_false] at h1 h2
        rw [ih h1 h2]
      · simp [strLe, h, Nat.lt_asymm h] at h1

theorem getCoordHash_singleton (c : CubeCoord) :
    getCoordHash [c] = coordStr c := by
  simp [getCoordHash, sortStrs, List.insertionSort, List.orderedInsert,
    List.intercalate, List.intersperse]

theorem sortStrs_pair (x y : List ℕ) : sortStrs [x, y] = sortStrs [y, x] := by
  simp only [sortStrs, List.insertionSort, List.orderedInsert]
  by_cases h1 : strLe x y = true
  · by_cases h2 : strLe y x = true
    · rw [strLe_antisymm h1 h2]
    · simp [h1, h2]
  · have h2 : strLe y x = true := (strLe_total x y).resolve_left h1
    simp [h1, h2]

theorem getCoordHash_pair_comm (a b : CubeCoord) :
    getCoordHash [a, b] = getCoordHash [b, a] := by
  unfold getCoordHash
  simp only [List.map_cons, List.map_nil]
  rw [sortStrs_pair]

/- Board topology model, canvas.ts -/

theorem intAbs_eq_abs (z : ℤ) : intAbs z = |z| := by
  unfold intAbs
  split
  · next h => rw [abs_of_neg h]
  · next h => rw [abs_of_nonneg (by omega)]

/-- Claim C4: the Road constructor fails on non-neighbouring tiles and the
Settlement constructor fails on tiles that do not form a cycle of mutual
neighbours; construction succeeds on two adjacent tiles and on three
cyclically adjacent tiles; and the canonical road key is independent of
the order of the two tiles. -/
theorem road_settlement_construction_validation
    (t1 t2 u1 u2 : GameTile) (us : List GameTile)
    (h1 : isNeighbour t1.coords t2.coords = false)
    (h2 : cyclicNeighbours us = false)
    (h3 : isNeighbour u1.coords u2.coords = true) :
    mkRoad t1 t2 = none ∧
    mkSettlement us = none ∧
    (mkRoad u1 u2).isSome = true ∧
    (∀ v1 v2 v3 : GameTile, cyclicNeighbours [v1, v2, v3] = true →
      (mkSettlement [v1, v2, v3]).isSome = true) ∧
    (∀ w1 w2 : GameTile, roadKey ⟨w1, w2⟩ = roadKey ⟨w2, w1⟩) := by
  refine ⟨by simp [mkRoad, h1], by simp [mkSettlement, h2],
    by simp [mkRoad, h3], fun v1 v2 v3 hv => by simp [mkSettlement, hv],
    fun w1 w2 => getCoordHash_pair_comm w1.coords w2.coords⟩

/-- Witness for road_settlement_construction_validation: concrete resource
tiles at distance two (road fails), a singleton tile list (settlement
fails), and the origin with its northEast neighbour (road succeeds, with an
order-independent key). -/
theorem road_settlement_construction_validation_witness :
    mkRoad ⟨⟨0, 0, 0⟩, 70, .resource⟩ ⟨⟨2, 0, -2⟩, 70, .resource⟩ = none ∧
    mkSettlement [⟨⟨0, 0, 0⟩, 70, .resource⟩] = none ∧
    (mkRoad ⟨⟨0, 0, 0⟩, 70, .resource⟩ ⟨⟨1, -1, 0⟩, 70, .resource⟩).isSome = true ∧
    (mkSettlement [⟨⟨0, 0, 0⟩, 70, .resource⟩, ⟨⟨1, -1, 0⟩, 70, .resource⟩,
      ⟨⟨1, 0, -1⟩, 70, .resource⟩]).isSome = true ∧
    roadKey ⟨⟨⟨0, 0, 0⟩, 70, .resource⟩, ⟨⟨1, -1, 0⟩, 70, .resource⟩⟩ =
      roadKey ⟨⟨⟨1, -1, 0⟩, 70, .resource⟩, ⟨⟨0, 0, 0⟩, 70, .resource⟩⟩ := by
  have h := road_settlement_construction_validation
    ⟨⟨0, 0, 0⟩, 70, .resource⟩ ⟨⟨2, 0, -2⟩, 70, .resource⟩
    ⟨⟨0, 0, 0⟩, 70, .resource⟩ ⟨⟨1, -1, 0⟩, 70, .resource⟩
    [⟨⟨0, 0, 0⟩, 70, .resource⟩] (by decide) (by decide) (by decide)
  exact ⟨h.1, h.2.1, h.2.2.1,
    h.2.2.2.1 _ _ _ (by decide),
    h.2.2.2.2 ⟨⟨0, 0, 0⟩, 70, .resource⟩ ⟨⟨1, -1, 0⟩, 70, .resource⟩⟩

set_option maxRecDepth 80000 in
/-- Counterexample to the dropped-during-the-loop part of claim C3: the
road between the resource tiles at the origin and at (1, -1, 0) is
discovered from both endpoint tiles and BOTH candidates survive the loop
of createAllLocations; the existence check consults roadCoordMap, which is
still the empty map while the loop runs, so the duplicate candidate from
the neighbour side is not dropped there: the candidate list contains the
same canonical key twice. -/
theorem road_duplicate_not_dropped :
    board3Roads.isSome = true ∧
    (board3Roads.getD []).countP
      (fun rd => roadKey rd == getCoordHash [⟨0, 0, 0⟩, ⟨1, -1, 0⟩]) = 2 := by
  constructor
  · decide
  · decide

set_option maxRecDepth 80000 in
/-- Claim C3, amended: after the setters run, each canonical key maps to
exactly one Road and one Settlement (the key lists of both maps have no
duplicates, and the doubly-discovered road key appears exactly once, as
does a vertex key discoverable from three tiles); the duplicate road
candidate is not dropped inside the loop, whose existence check reads the
still-empty road map: instead both candidates reach the roads setter and
the Map construction collapses them by key. -/
theorem board_maps_key_unique :
    (board3RoadMap.map (fun p => p.1)).Nodup ∧
    (board3SettlementMap.map (fun p => p.1)).Nodup ∧
    board3RoadMap.countP
      (fun p => p.1 == getCoordHash [⟨0, 0, 0⟩, ⟨1, -1, 0⟩]) = 1 ∧
    board3SettlementMap.countP
      (fun p => p.1 == getCoordHash [⟨0, 0, 0⟩, ⟨0, -1, 1⟩, ⟨1, -1, 0⟩]) = 1 := by
  refine ⟨by decide, ?_, by decide, ?_⟩
  · decide
  · decide

set_option maxRecDepth 80000 in
/-- Counterexample to claim C5: on the edgeBoardTiles map, the north
vertex triad of the origin tile resolves to only two tiles, the origin and
its northWest neighbour.  The loop does not skip it: the unresolved
coordinate is filtered out and the Settlement constructor is called on the
two remaining mutually adjacent tiles; they pass the cyclic check, and the
constructor then throws while destructuring three tiles in get2DCoords,
which aborts the whole settlement build (none).  Had the triad been
skipped as the claim states, the build would have completed over the
remaining fully resolvable triads. -/
theorem settlement_triad_not_skipped :
    cyclicNeighbours
      [⟨⟨0, 0, 0⟩, 70, .resource⟩, ⟨⟨0, -1, 1⟩, 70, .placeholder⟩] = true ∧
    mkSettlement
      [⟨⟨0, 0, 0⟩, 70, .resource⟩, ⟨⟨0, -1, 1⟩, 70, .placeholder⟩] = none ∧
    createSettlements (setTiles edgeBoardTiles) [] = none := by
  refine ⟨by decide, by decide, ?_⟩
  decide

set_option maxRecDepth 80000 in
/-- Claim C5, amended: the settlement loop does not skip a triad with
fewer than three resolvable coordinates; it filters the unresolved ones
and calls the Settlement constructor on the rest, and the constructor then
throws while destructuring three tiles in get2DCoords, aborting the whole
build.  So no Settlement with fewer than three tiles is ever constructed,
but by crashing the build, not by skipping the triad.  On the board the
program actually builds (radius 3), every vertex triad of every resource
tile resolves fully, the build completes, and every constructed Settlement
has exactly three tiles. -/
theorem board3_settlements_all_three_tiles :
    createSettlements (setTiles edgeBoardTiles) [] = none ∧
    board3Settlements.isSome = true ∧
    (board3Settlements.getD []).all (fun st => st.tiles.length == 3) = true := by
  refine ⟨?_, by decide, ?_⟩
  · decide
  · decide

/- ------------------------------------------------------------------ -/
/- Claim C6: helper lemmas on ranges and the grid, then the claim. -/

theorem intRangeAux_length (a : ℤ) (n : ℕ) : (intRangeAux a n).length = n := by
  induction n generalizing a with
  | zero => rfl
  | succ m ih => simp [intRangeAux, ih]

theorem mem_intRangeAux {x : ℤ} :
    ∀ (n : ℕ) (a : ℤ), x ∈ intRangeAux a n → a ≤ x ∧ x < a + n := by
  intro n
  induction n with
  | zero => intro a h; simp [intRangeAux] at h
  | succ m ih =>
    intro a h
    rcases List.mem_cons.mp h with rfl | h
    · omega
    · have := ih (a + 1) h
      omega

theorem intRangeAux_nodup : ∀ (n : ℕ) (a : ℤ), (intRangeAux a n).Nodup := by
  intro n
  induction n with
  | zero => intro a; simp [intRangeAux]
  | succ m ih =>
    intro a
    refine List.nodup_cons.mpr ⟨fun h => ?_, ih (a + 1)⟩
    have := mem_intRangeAux m (a + 1) h
    omega

theorem filterMap_ite_eq {α β : Type} (p : α → Prop) [DecidablePred p]
    (f : α → β) (l : List α) :
    (l.filterMap fun a => if p a then some (f a) else none) =
      (l.filter fun a => decide (p a)).map f := by
  induction l with
  | nil => rfl
  | cons x xs ih =>
    by_cases h : p x
    · simp [List.filterMap_cons, List.filter_cons, h, ih]
    · simp [List.filterMap_cons, List.filter_cons, h, ih]

theorem count_intRangeAux (c d : ℤ) :
    ∀ (n : ℕ) (a : ℤ),
      ((intRangeAux a n).filter fun q => decide (c ≤ q ∧ q ≤ d)).length =
        (min (a + n) (d + 1) - max a c).toNat := by
  intro n
  induction n with
  | zero =>
    intro a
    simp [intRangeAux]
    omega
  | succ m ih =>
    intro a
    rw [show intRangeAux a (m + 1) = a :: intRangeAux (a + 1) m from rfl,
      List.filter_cons]
    by_cases h : c ≤ a ∧ a ≤ d
    · rw [if_pos (by simpa using h)]
      simp only [List.length_cons, ih (a + 1)]
      omega
    · rw [if_neg (by simpa using h)]
      rw [ih (a + 1)]
      push_cast
      omega

theorem sum_map_intRangeAux (f : ℤ → ℕ) :
    ∀ (n : ℕ) (a : ℤ),
      ((intRangeAux a n).map f).sum = ∑ i in Finset.range n, f (a + i) := by
  intro n
  induction n with
  | zero => intro a; simp [intRangeAux]
  | succ m ih =>
    intro a
    rw [show intRangeAux a (m + 1) = a :: intRangeAux (a + 1) m from rfl]
    rw [List.map_cons, List.sum_cons, ih (a + 1), Finset.sum_range_succ']
    simp only [Nat.cast_zero, add_zero, Nat.cast_add, Nat.cast_one]
    rw [Nat.add_comm]
    congr 1
    refine Finset.sum_congr rfl fun i _ => ?_
    congr 1
    ring

theorem sum_min_range (R : ℕ) :
    ∑ i in Finset.range (2 * R + 1), min i (2 * R - i) = R * R := by
  have hsec : ∑ i in Finset.Ico R (2 * R + 1), min i (2 * R - i) =
      ∑ i in Finset.range (R + 1), i := by
    rw [Finset.sum_Ico_eq_sum_range]
    have h3 : 2 * R + 1 - R = R + 1 := by omega
    rw [h3]
    have h4 : ∑ i in Finset.range (R + 1), min (R + i) (2 * R - (R + i)) =
        ∑ i in Finset.range (R + 1), (R - i) := by
      refine Finset.sum_congr rfl fun i hi => ?_
      have := Finset.mem_range.mp hi
      omega
    rw [h4]
    have := Finset.sum_range_reflect (fun i => i) (R + 1)
    simpa using this
  have hfst : ∑ i in Finset.Ico 0 R, min i (2 * R - i) =
      ∑ i in Finset.range R, i := by
    rw [← Finset.range_eq_Ico]
    refine Finset.sum_congr rfl fun i hi => ?_
    have := Finset.mem_range.mp hi
    omega
  have hsplit := Finset.sum_Ico_consecutive (fun i => min i (2 * R - i))
    (Nat.zero_le R) (by omega : R ≤ 2 * R + 1)
  rw [Finset.range_eq_Ico, ← hsplit, hfst, hsec]
  have hA := Finset.sum_range_id_mul_two R
  have hB := Finset.sum_range_id_mul_two (R + 1)
  have hcomb : R * (R - 1) + (R + 1) * (R + 1 - 1) = 2 * (R * R) := by
    cases R with
    | zero => rfl
    | succ n =>
      simp only [Nat.succ_sub_one]
      ring
  omega

theorem createGridRow_length (R : ℕ) (sz : ℚ) (r : ℤ) :
    (createGridRow (R : ℤ) sz r).length =
      (min ((R : ℤ) + 1) ((R : ℤ) - r + 1) -
        max (-(R : ℤ)) (-(R : ℤ) - r)).toNat := by
  unfold createGridRow
  rw [filterMap_ite_eq (fun q => intAbs (-q - r) ≤ (R : ℤ)), List.length_map]
  have hpred : ∀ q ∈ intRange (-(R : ℤ)) (R : ℤ),
      (decide (intAbs (-q - r) ≤ (R : ℤ))) =
        (decide (-(R : ℤ) - r ≤ q ∧ q ≤ (R : ℤ) - r)) := by
    intro q _
    rw [decide_eq_decide, intAbs_eq_abs, abs_le]
    omega
  rw [List.filter_congr hpred, intRange,
    count_intRangeAux (-(R : ℤ) - r) ((R : ℤ) - r)]
  have hn : (((R : ℤ) + 1) - -(R : ℤ)).toNat = 2 * R + 1 := by omega
  rw [hn]
  omega

theorem createGrid_length (R : ℕ) (sz : ℚ) :
    (createGrid (R : ℤ) sz).length = 3 * R ^ 2 + 3 * R + 1 := by
  unfold createGrid
  rw [List.length_flatten, List.map_map]
  simp only [Function.comp_def]
  have hn : (((R : ℤ) + 1) - -(R : ℤ)).toNat = 2 * R + 1 := by omega
  rw [intRange, hn, sum_map_intRangeAux]
  have hpt : ∀ i ∈ Finset.range (2 * R + 1),
      (createGridRow (R : ℤ) sz (-(R : ℤ) + i)).length =
        R + 1 + min i (2 * R - i) := by
    intro i hi
    have hi2 := Finset.mem_range.mp hi
    rw [createGridRow_length]
    omega
  rw [Finset.sum_congr rfl hpt, Finset.sum_add_distrib, Finset.sum_const,
    Finset.card_range, smul_eq_mul, sum_min_range]
  ring

theorem createGridRow_coords_nodup (rad : ℤ) (sz : ℚ) (r : ℤ) :
    ((createGridRow rad sz r).map (fun t => t.coords)).Nodup := by
  unfold createGridRow
  rw [filterMap_ite_eq (fun q => intAbs (-q - r) ≤ rad), List.map_map]
  simp only [Function.comp_def]
  refine List.Nodup.map ?_ ((intRangeAux_nodup _ _).filter _)
  intro a b hab
  simpa using congrArg CubeCoord.q hab

theorem mem_createGridRow_r {rad : ℤ} {sz : ℚ} {r : ℤ} {c : CubeCoord}
    (hc : c ∈ (createGridRow rad sz r).map (fun t => t.coords)) : c.r = r := by
  unfold createGridRow at hc
  rw [filterMap_ite_eq (fun q => intAbs (-q - r) ≤ rad), List.map_map] at hc
  simp only [Function.comp_def, List.mem_map] at hc
  obtain ⟨q, -, rfl⟩ := hc
  rfl

theorem createGrid_coords_nodup (rad : ℤ) (sz : ℚ) :
    ((createGrid rad sz).map (fun t => t.coords)).Nodup := by
  unfold createGrid
  rw [List.map_flatten, List.map_map]
  rw [List.nodup_flatten]
  constructor
  · intro l hl
    simp only [List.mem_map, Function.comp_def] at hl
    obtain ⟨r, -, rfl⟩ := hl
    exact createGridRow_coords_nodup rad sz r
  · rw [List.pairwise_map]
    refine List.Pairwise.imp ?_ (intRangeAux_nodup _ _)
    intro r1 r2 hne c hc1 hc2
    exact hne (by rw [← mem_createGridRow_r hc1, ← mem_createGridRow_r hc2])

theorem createGrid_kind (rad : ℤ) (sz : ℚ) (t : GameTile)
    (ht : t ∈ createGrid rad sz) :
    t.kind = .placeholder ↔
      (intAbs t.coords.q = rad ∨ intAbs t.coords.r = rad ∨
        intAbs t.coords.s = rad) := by
  unfold createGrid at ht
  simp only [List.mem_flatten, List.mem_map] at ht
  obtain ⟨l, ⟨r, hr, rfl⟩, ht⟩ := ht
  unfold createGridRow at ht
  simp only [List.mem_filterMap] at ht
  obtain ⟨q, hq, hsome⟩ := ht
  split at hsome
  · next h1 =>
    replace hsome := Option.some.inj hsome
    subst hsome
    split
    · next h2 => exact iff_of_true rfl h2
    · next h2 => exact iff_of_false (by simp) h2
  · exact absurd hsome (by simp)

/-- Claim C6: for every board radius R, the grid generation loop produces
exactly 3 R squared + 3 R + 1 tiles with pairwise distinct coordinates;
their canonical coordinate keys are also pairwise distinct (so building
the tile map loses nothing); and a cell is a PlaceholderTile exactly when
one of its coordinates has absolute value R. -/
theorem createGrid_count_nodup_ring (R : ℕ) (sz : ℚ) (t : GameTile)
    (ht : t ∈ createGrid (R : ℤ) sz) :
    (createGrid (R : ℤ) sz).length = 3 * R ^ 2 + 3 * R + 1 ∧
    ((createGrid (R : ℤ) sz).map (fun u => u.coords)).Nodup ∧
    ((createGrid (R : ℤ) sz).map (fun u => getCoordHash [u.coords])).Nodup ∧
    (t.kind = .placeholder ↔
      (intAbs t.coords.q = (R : ℤ) ∨ intAbs t.coords.r = (R : ℤ) ∨
        intAbs t.coords.s = (R : ℤ))) := by
  refine ⟨createGrid_length R sz, createGrid_coords_nodup (R : ℤ) sz, ?_,
    createGrid_kind (R : ℤ) sz t ht⟩
  simp only [getCoordHash_singleton]
  have : (createGrid (R : ℤ) sz).map (fun u => coordStr u.coords) =
      ((createGrid (R : ℤ) sz).map (fun u => u.coords)).map coordStr := by
    rw [List.map_map]
    rfl
  rw [this]
  exact (createGrid_coords_nodup (R : ℤ) sz).map coordStr_inj

/-- Witness for createGrid_count_nodup_ring at radius 0: the grid is the
single placeholder tile at the origin. -/
theorem createGrid_count_nodup_ring_witness :
    (createGrid ((0 : ℕ) : ℤ) 70).length = 3 * 0 ^ 2 + 3 * 0 + 1 ∧
    ((createGrid ((0 : ℕ) : ℤ) 70).map (fun u => u.coords)).Nodup ∧
    ((createGrid ((0 : ℕ) : ℤ) 70).map (fun u => getCoordHash [u.coords])).Nodup ∧
    ((⟨⟨0, 0, 0⟩, 70, .placeholder⟩ : GameTile).kind = .placeholder ↔
      (intAbs (⟨⟨0, 0, 0⟩, 70, .placeholder⟩ : GameTile).coords.q = ((0 : ℕ) : ℤ) ∨
        intAbs (⟨⟨0, 0, 0⟩, 70, .placeholder⟩ : GameTile).coords.r = ((0 : ℕ) : ℤ) ∨
        intAbs (⟨⟨0, 0, 0⟩, 70, .placeholder⟩ : GameTile).coords.s = ((0 : ℕ) : ℤ))) :=
  createGrid_count_nodup_ring 0 70 ⟨⟨0, 0, 0⟩, 70, .placeholder⟩ (by decide)

/- ------------------------------------------------------------------ -/
/- Claims C8 and C9: shape and resize behaviour. -/

@[simp] theorem K_add_a (u v : K) : (u + v).a = u.a + v.a := rfl

@[simp] theorem K_add_b (u v : K) : (u + v).b = u.b + v.b := rfl

@[simp] theorem K_sub_a (u v : K) : (u - v).a = u.a - v.a := rfl

@[simp] theorem K_sub_b (u v : K) : (u - v).b = u.b - v.b := rfl

@[simp] theorem K_neg_a (u : K) : (-u).a = -u.a := rfl

@[simp] theorem K_neg_b (u : K) : (-u).b = -u.b := rfl

@[simp] theorem K_mul_a (u v : K) : (u * v).a = u.a * v.a + 3 * (u.b * v.b) := rfl

@[simp] theorem K_mul_b (u v : K) : (u * v).b = u.a * v.b + u.b * v.a := rfl

@[simp] theorem K_inv_a (u : K) : (u⁻¹).a = u.a / (u.a ^ 2 - 3 * u.b ^ 2) := rfl

@[simp] theorem K_inv_b (u : K) : (u⁻¹).b = -u.b / (u.a ^ 2 - 3 * u.b ^ 2) := rfl

@[simp] theorem K_div_a (u v : K) : (u / v).a = (u * v⁻¹).a := rfl

@[simp] theorem K_div_b (u v : K) : (u / v).b = (u * v⁻¹).b := rfl

@[simp] theorem K_zero_a : (0 : K).a = 0 := rfl

@[simp] theorem K_zero_b : (0 : K).b = 0 := rfl

@[simp] theorem K_one_a : (1 : K).a = 1 := rfl

@[simp] theorem K_one_b : (1 : K).b = 0 := rfl

@[simp] theorem K_ofQ_a (x : ℚ) : (K.ofQ x).a = x := rfl

@[simp] theorem K_ofQ_b (x : ℚ) : (K.ofQ x).b = 0 := rfl

theorem K_eq_iff (u v : K) : u = v ↔ u.a = v.a ∧ u.b = v.b :=
  ⟨fun h => ⟨congrArg K.a h, congrArg K.b h⟩, fun h => K.ext h.1 h.2⟩

theorem degenerate_examples :
    rectContains 0 0 0 0 1 0 0 0 = true ∧
    hexContains 0 0 ⟨-1, 0⟩ 0 0 = true := by
  constructor
  · norm_num [rectContains, jabs]
  · unfold hexContains
    rw [List.any_eq_true]
    refine ⟨0, by norm_num, ?_⟩
    simp only [isPointInTriangle, hexCos, hexSin]
    norm_num [K_eq_iff, K.nonneg, K.le]

theorem hexContains_zero_size (x y px py : K) :
    hexContains x y 0 px py = false := by
  unfold hexContains
  rw [List.any_eq_false]
  intro side hside
  simp only [isPointInTriangle]
  rw [if_pos]
  · simp
  · left
    ext <;> simp

theorem rectContains_neg_false (x y w h cosv sinv px py : ℚ)
    (hw : w < 0 ∨ h < 0) :
    rectContains x y w h cosv sinv px py = false := by
  simp only [rectContains, decide_eq_false_iff_not]
  rintro ⟨h1, h2⟩
  unfold jabs at h1 h2
  rcases hw with hw | hw
  · split at h1 <;> linarith
  · split at h2 <;> linarith

/-- Claim C8, amended: a rectangle with strictly negative width or height
contains no point; a hexagon of size zero contains no point (the source
computes NaN and every comparison fails); but the degenerate boundary
cases of the claim as stated do report containment: a zero-by-zero
rectangle contains its center, and a hexagon of negative size behaves as a
point-reflected hexagon and contains its center. -/
theorem degenerate_contains_amended (x y w h cosv sinv px py : ℚ)
    (hx hy pX pY : K) (hw : w < 0 ∨ h < 0) :
    rectContains x y w h cosv sinv px py = false ∧
    hexContains hx hy 0 pX pY = false ∧
    rectContains 0 0 0 0 1 0 0 0 = true ∧
    hexContains 0 0 ⟨-1, 0⟩ 0 0 = true :=
  ⟨rectContains_neg_false x y w h cosv sinv px py hw,
   hexContains_zero_size hx hy pX pY,
   degenerate_examples.1, degenerate_examples.2⟩

/-- Witness for degenerate_contains_amended: a rectangle of width -1. -/
theorem degenerate_contains_amended_witness :
    rectContains 0 0 (-1) 5 1 0 0 0 = false ∧
    hexContains 0 0 0 0 0 = false ∧
    rectContains 0 0 0 0 1 0 0 0 = true ∧
    hexContains 0 0 ⟨-1, 0⟩ 0 0 = true :=
  degenerate_contains_amended 0 0 (-1) 5 1 0 0 0 0 0 0 0 (Or.inl (by norm_num))

/-- Counterexample to claim C8 as stated: a Rectangle with width 0 and
height 0 (rotation 0, so its cosine and sine arguments are exactly 1 and
0) reports its own center as contained, because the comparison of absolute
value of 0 against width over 2 = 0 is not strict; and a PointyHexagon of
size -1 reports its center as contained, because its six triangles are
genuine point-reflected triangles and the center lies in each of them with
barycentric weights zero.  Both degenerate containment tests were claimed
to return false. -/
theorem degenerate_contains_counterexample :
    rectContains 0 0 0 0 1 0 0 0 = true ∧
    hexContains 0 0 ⟨-1, 0⟩ 0 0 = true :=
  degenerate_examples

/-- Counterexample to claim C9 as stated: after updateAllTileSize assigns
the new size 35 to the origin tile built with size 70, the size field has
changed but get2DCoords has not: the pixel position of the origin tile is
the origin at every size, so the claim that the get2DCoords result has
changed fails for this tile. -/
theorem resize_origin_coords_unchanged :
    (updateTileSize (mkResourceTile 0 0 0 70) 35).get2D =
      (mkResourceTile 0 0 0 70).get2D ∧
    (35 : ℚ) ≠ 70 ∧
    (updateTileSize (mkResourceTile 0 0 0 70) 35).size ≠
      (mkResourceTile 0 0 0 70).size := by
  refine ⟨?_, by norm_num, by norm_num [updateTileSize, mkResourceTile]⟩
  show get2DCoords ⟨0, 0, 0⟩ 35 = get2DCoords ⟨0, 0, 0⟩ 70
  simp only [get2DCoords, Prod.mk.injEq, K_eq_iff]
  norm_num [sqrt3]

/-- Claim C9, amended: after updateAllTileSize assigns a new size, the
shape of a ResourceTile is unchanged: its stored size and center are still
the ones computed from the construction-time size; the tile size field now
holds the new size, get2DCoords now computes from the new size, and for
every tile except the one at the origin the get2DCoords result differs
from the old one. -/
theorem resize_shape_stale (q r s : ℤ) (sz sz2 : ℚ)
    (h1 : sz2 ≠ sz) (h2 : ¬(q = 0 ∧ r = 0)) :
    (updateTileSize (mkResourceTile q r s sz) sz2).shape =
      (mkResourceTile q r s sz).shape ∧
    (updateTileSize (mkResourceTile q r s sz) sz2).shape.size = sz ∧
    (updateTileSize (mkResourceTile q r s sz) sz2).shape.x =
      (get2DCoords ⟨q, r, s⟩ sz).1 ∧
    (updateTileSize (mkResourceTile q r s sz) sz2).shape.y =
      (get2DCoords ⟨q, r, s⟩ sz).2 ∧
    (updateTileSize (mkResourceTile q r s sz) sz2).size = sz2 ∧
    (updateTileSize (mkResourceTile q r s sz) sz2).get2D =
      get2DCoords ⟨q, r, s⟩ sz2 ∧
    (updateTileSize (mkResourceTile q r s sz) sz2).get2D ≠
      (mkResourceTile q r s sz).get2D := by
  refine ⟨rfl, rfl, rfl, rfl, rfl, rfl, ?_⟩
  show get2DCoords ⟨q, r, s⟩ sz2 ≠ get2DCoords ⟨q, r, s⟩ sz
  intro hcontra
  simp only [get2DCoords, Prod.mk.injEq, K_eq_iff, K_mul_a, K_mul_b, K_add_a,
    K_add_b, K_ofQ_a, K_ofQ_b, K_div_a, K_div_b, K_inv_a, K_inv_b, sqrt3] at hcontra
  obtain ⟨⟨hx1, hx2⟩, hy1, hy2⟩ := hcontra
  by_cases hr : r = 0
  · subst hr
    have hq : q ≠ 0 := fun hq => h2 ⟨hq, rfl⟩
    have hqq : ((q : ℚ)) ≠ 0 := Int.cast_ne_zero.mpr hq
    apply h1
    field_simp at hx2
    rcases hx2 with h | h
    · exact h
    · exact absurd h hq
  · have hrr : ((r : ℚ)) ≠ 0 := Int.cast_ne_zero.mpr hr
    apply h1
    field_simp at hy1
    exact hy1

/-- Witness for resize_shape_stale at the tile (1, 0, -1), sizes 70 and
35. -/
theorem resize_shape_stale_witness :
    (updateTileSize (mkResourceTile 1 0 (-1) 70) 35).shape =
      (mkResourceTile 1 0 (-1) 70).shape ∧
    (updateTileSize (mkResourceTile 1 0 (-1) 70) 35).shape.size = 70 ∧
    (updateTileSize (mkResourceTile 1 0 (-1) 70) 35).shape.x =
      (get2DCoords ⟨1, 0, -1⟩ 70).1 ∧
    (updateTileSize (mkResourceTile 1 0 (-1) 70) 35).shape.y =
      (get2DCoords ⟨1, 0, -1⟩ 70).2 ∧
    (updateTileSize (mkResourceTile 1 0 (-1) 70) 35).size = 35 ∧
    (updateTileSize (mkResourceTile 1 0 (-1) 70) 35).get2D =
      get2DCoords ⟨1, 0, -1⟩ 35 ∧
    (updateTileSize (mkResourceTile 1 0 (-1) 70) 35).get2D ≠
      (mkResourceTile 1 0 (-1) 70).get2D :=
  resize_shape_stale 1 0 (-1) 70 35 (by norm_num) (by simp)
